import Mathlib

/-!
Shallow embedding of the simplecontext repository (Python sources under
`src/`): the SQLite-backed memory store (`src/storage.py`, `src/memory.py`),
the error journal (`src/errors.py`), mode detection and attention budgets
(`src/modes.py`), and the input-validating tool layer
(`src/simplecontext.py`).  Text is modelled as `List Char`, timestamps and
scores as `ℚ`, and the SQLite tables as Lean lists; each definition carries a
comment naming the Python function it embeds.
-/

namespace SimpleContext

/-- ASCII lower-casing of a character, as performed by SQLite's default
`LIKE` (case folding for ASCII letters only) and by Python's `str.lower` on
ASCII text.  Lean's `Char.toLower` lowers exactly the ASCII upper-case
letters. -/
def lowerChar (c : Char) : Char := c.toLower

/-- Lower-case every character of a string (model of `message.lower()` /
SQLite ASCII case folding, restricted to ASCII where the two agree). -/
def lowerStr (s : List Char) : List Char := s.map lowerChar

/-- Boolean test that `needle` occurs contiguously inside `hay`
(case-sensitive, exact containment — the semantics of Python's
`needle in hay` on strings). -/
def containsSub (needle hay : List Char) : Bool :=
  hay.tails.any (fun t => needle.isPrefixOf t)

/-- Python's `str.strip()` restricted to whitespace characters: drop
whitespace from both ends.  Used by `validate_input` in
`src/simplecontext.py` (`if not content.strip()`). -/
def pyStrip (s : List Char) : List Char :=
  ((s.dropWhile Char.isWhitespace).reverse.dropWhile Char.isWhitespace).reverse

/-- The apostrophe character, written by code point to keep it out of
string literals. -/
def apos : Char := Char.ofNat 39

/-- The keyword list `DEBUG_KEYWORDS` of `src/modes.py`, in source order. -/
def DEBUG_KEYWORDS : List (List Char) :=
  ["error".toList, "bug".toList, "fail".toList, "failing".toList,
   "broken".toList, "crash".toList, "crashes".toList,
   "exception".toList, "traceback".toList, "stack trace".toList,
   "fix".toList, "debug".toList, "debugging".toList,
   "not working".toList,
   "doesn".toList ++ [apos] ++ "t work".toList,
   "won".toList ++ [apos] ++ "t work".toList]

/-- The loop body of `detect_mode` (`src/modes.py`): scan the keyword list
in order, returning `"debugging"` on the first keyword contained in the
lowered message, else `"coding"`. -/
def detectModeAux (low : List Char) : List (List Char) → List Char
  | [] => "coding".toList
  | k :: ks => if containsSub k low then "debugging".toList else detectModeAux low ks

/-- `detect_mode(message)` from `src/modes.py`: lower-case the message and
scan it against `DEBUG_KEYWORDS`. -/
def detect_mode (message : List Char) : List Char :=
  detectModeAux (lowerStr message) DEBUG_KEYWORDS

/-- The hardcoded attention-budget table `MODES` of `src/modes.py`, each
mode mapping the five categories to their fraction (Python float literals
read as exact rationals). -/
def MODES : List (List Char × List (List Char × ℚ)) :=
  [("coding".toList,
     [("memories".toList, 30/100), ("artifacts".toList, 30/100),
      ("session".toList, 25/100), ("errors".toList, 10/100),
      ("goal".toList, 5/100)]),
   ("debugging".toList,
     [("errors".toList, 50/100), ("session".toList, 25/100),
      ("memories".toList, 15/100), ("artifacts".toList, 10/100),
      ("goal".toList, 0)])]

/-- `get_attention_budget(mode)` from `src/modes.py`:
`MODES.get(mode, MODES["coding"])`. -/
def get_attention_budget (mode : List Char) : List (List Char × ℚ) :=
  match MODES.lookup mode with
  | some b => b
  | none =>
    match MODES.lookup ("coding".toList) with
    | some b => b
    | none => []

/-- SQLite `LIKE` pattern matching: `%` matches any character sequence,
`_` matches any single character, and ordinary characters compare
case-insensitively on ASCII letters (SQLite's default, no `ESCAPE`
clause).  Structural recursion on the pattern: a `%` tries every suffix of
the remaining string. -/
def likeMatch : List Char → List Char → Bool
  | [], s => s.isEmpty
  | p :: ps, s =>
    if p = '%' then s.tails.any (fun t => likeMatch ps t)
    else if p = '_' then
      match s with
      | [] => false
      | _ :: s1 => likeMatch ps s1
    else
      match s with
      | [] => false
      | c :: s1 => (lowerChar p == lowerChar c) && likeMatch ps s1

/-- Row of the `artifacts` table (`src/storage.py`): `name` is `UNIQUE`,
`size` is the byte length of the content, `created_at` a Unix timestamp.
The `id TEXT PRIMARY KEY` column holds a fresh UUID on every store and
never collides, so it is omitted from the model. -/
structure Artifact where
  name : List Char
  content : List Char
  size : Nat
  created_at : ℚ
deriving DecidableEq

/-- `SimpleMemory.store` (`src/memory.py`): `INSERT OR REPLACE INTO
artifacts` with `name UNIQUE` deletes any row conflicting on `name` and
appends the fresh row (REPLACE delete-then-insert, new rowid at the
end). -/
def artStore (name content : List Char) (t : ℚ) (arts : List Artifact) : List Artifact :=
  (arts.filter (fun a => !(a.name == name))) ++ [⟨name, content, content.length, t⟩]

/-- `SimpleMemory.retrieve` (`src/memory.py`): `SELECT content FROM
artifacts WHERE name = ?` and `fetchone`, `None` when absent. -/
def artRetrieve (name : List Char) (arts : List Artifact) : Option (List Char) :=
  (arts.find? (fun a => a.name == name)).map (fun a => a.content)

/-- Row of the `errors` table (`src/storage.py`): `id INTEGER PRIMARY KEY
AUTOINCREMENT`, `resolved INTEGER DEFAULT 0`. -/
structure ErrRow where
  id : Nat
  action : List Char
  error : List Char
  ctx : List Char
  created_at : ℚ
  resolved : Bool
deriving DecidableEq

/-- State of the error journal: the `errors` table plus the AUTOINCREMENT
counter. -/
structure ErrDB where
  rows : List ErrRow
  nextId : Nat
deriving DecidableEq

/-- `ErrorMemory.log_error` (`src/errors.py`): append a row with a fresh
monotonic id and `resolved = 0`, returning `lastrowid`. -/
def log_error (action err ctx : List Char) (t : ℚ) (db : ErrDB) : ErrDB × Nat :=
  ({ rows := db.rows ++ [⟨db.nextId, action, err, ctx, t, false⟩],
     nextId := db.nextId + 1 }, db.nextId)

/-- `ErrorMemory.resolve_error` (`src/errors.py`): `UPDATE errors SET
resolved = 1 WHERE id = ?`, returning `rowcount > 0`.  The `resolution`
argument is accepted by the Python function but never persisted. -/
def resolve_error (eid : Nat) (db : ErrDB) : ErrDB × Bool :=
  ({ rows := db.rows.map (fun r => if r.id == eid then { r with resolved := true } else r),
     nextId := db.nextId },
   decide (0 < db.rows.countP (fun r => r.id == eid)))

/-- `ErrorMemory.get_recent_errors` (`src/errors.py`): optionally filter
`resolved = 0`, `ORDER BY created_at DESC` (ties left in table order, a
deterministic choice where SQLite leaves them unspecified), `LIMIT ?`
(negative SQLite LIMIT means unlimited). -/
def get_recent_errors (limit : Int) (unresolvedOnly : Bool) (db : ErrDB) : List ErrRow :=
  let base := if unresolvedOnly then db.rows.filter (fun r => !r.resolved) else db.rows
  let sorted := base.insertionSort (fun a b => b.created_at ≤ a.created_at)
  if limit < 0 then sorted else sorted.take limit.toNat

/-- Row of the `memories` table (`src/storage.py`), together with its
SQLite rowid (the table has a `TEXT` primary key, so SQLite assigns an
integer rowid; the UUID `id` column never collides and is omitted).
`tags` is stored JSON-serialized; the model keeps the list. -/
structure MemRow where
  rowid : Nat
  content : List Char
  tags : List (List Char)
  created_at : ℚ
  importance : List Char
deriving DecidableEq

/-- Entry of the `memories_fts` FTS5 table: the values the `memories_ai`
trigger copies from the inserted row (`rowid`, `content`, `tags`). -/
structure FtsEntry where
  rowid : Nat
  content : List Char
  tags : List (List Char)
deriving DecidableEq

/-- FTS5 `unicode61` tokenization (model): lower-case the text and split
it into maximal alphanumeric runs. -/
def tokenize (s : List Char) : List (List Char) :=
  ((lowerStr s).splitOnP (fun c => !c.isAlphanum)).filter (fun t => !t.isEmpty)

/-- Tokens indexed for an FTS entry: tokens of the `content` column plus
tokens of the `tags` column (the JSON serialization of the tags
tokenizes to the alphanumeric runs of the tag strings, since JSON
punctuation is a token separator). -/
def entryTokens (e : FtsEntry) : List (List Char) :=
  tokenize e.content ++ (e.tags.map tokenize).flatten

/-- FTS5 `MATCH` for a plain query (model): every token of the query must
occur among the entry's tokens (FTS5 treats adjacent bare terms as an
implicit AND); a query with no token matches nothing (FTS5 rejects it). -/
def ftsMatch (q : List Char) (e : FtsEntry) : Bool :=
  let qt := tokenize q
  !qt.isEmpty && qt.all (fun t => (entryTokens e).contains t)

/-- State of the memory store: the `memories` table and the
`memories_fts` index.  After a delete the index can hold stale entries
(see `forget`), so `fts` is not in general a mirror of `rows`. -/
structure MemDB where
  rows : List MemRow
  fts : List FtsEntry
deriving DecidableEq

/-- Fresh store right after `SimpleStorage._init_schema`. -/
def initDB : MemDB := ⟨[], []⟩

/-- The FTS entry the `memories_ai` trigger derives from a row. -/
def rowFts (m : MemRow) : FtsEntry := ⟨m.rowid, m.content, m.tags⟩

/-- The rowid SQLite assigns to the next insert into `memories`: one more
than the largest rowid currently in the table (1 for an empty table).
The table has no AUTOINCREMENT, so a freed maximal rowid is reused after
a delete. -/
def MemDB.nextRowid (db : MemDB) : Nat :=
  (db.rows.map (fun m => m.rowid)).foldr max 0 + 1

/-- `SimpleMemory.remember` (`src/memory.py`): insert one row (SQLite
assigns rowid `max+1`, reusing a freed maximal rowid) and, via the
`memories_ai` trigger (`src/storage.py`), one FTS entry with the same
rowid, both committed together. -/
def remember (content : List Char) (tags : List (List Char)) (importance : List Char)
    (t : ℚ) (db : MemDB) : MemDB :=
  { rows := db.rows ++ [⟨db.nextRowid, content, tags, t, importance⟩],
    fts := db.fts ++ [⟨db.nextRowid, content, tags⟩] }

/-- The LIKE pattern `forget` builds: `f"%\x7bquery\x7d%"`. -/
def likePat (q : List Char) : List Char := '%' :: (q ++ ['%'])

/-- `SimpleMemory.forget` (`src/memory.py`): `DELETE FROM memories WHERE
content LIKE '%query%'`, returning `cursor.rowcount`, the number of rows
deleted.  The `memories_ad` trigger then runs a plain
`DELETE FROM memories_fts WHERE rowid = old.rowid`; on this
external-content FTS5 table (`content='memories'`) that statement
removes no posting, because FTS5 reads the row's text from the content
table to unindex it and the content row is already gone when the AFTER
DELETE trigger fires.  The index therefore keeps the deleted row's
entries: `fts` is unchanged. -/
def forget (q : List Char) (db : MemDB) : MemDB × Nat :=
  let deleted := db.rows.filter (fun m => likeMatch (likePat q) m.content)
  ({ rows := db.rows.filter (fun m => !likeMatch (likePat q) m.content),
     fts := db.fts },
   deleted.length)

/-- The `recency_score` expression of `SimpleMemory.recall`:
`1.0 / (1.0 + age_days * 0.1)` with
`age_days = (julianday(now) - julianday(created_at)) = (now - created_at) / 86400`
for timestamps in seconds. -/
def recencyScore (now created_at : ℚ) : ℚ :=
  1 / (1 + ((now - created_at) / 86400) * (1 / 10))

/-- Row ordering used by the model of `ORDER BY recency_score DESC`:
higher score first; equal scores (equivalently, for timestamps not in the
future, equal `created_at`) kept with the larger rowid first — a
deterministic choice where SQLite leaves the order of ties
unspecified. -/
def rankRel (now : ℚ) (a b : MemRow) : Prop :=
  recencyScore now b.created_at < recencyScore now a.created_at ∨
    (recencyScore now a.created_at = recencyScore now b.created_at ∧ b.rowid ≤ a.rowid)

instance rankRelDec (now : ℚ) : DecidableRel (rankRel now) := fun a b => by
  unfold rankRel; infer_instance

/-- The join/match condition of `recall`'s SQL: the row joins an FTS entry
with the same rowid that matches the query. -/
def recallMatches (q : List Char) (db : MemDB) (m : MemRow) : Bool :=
  db.fts.any (fun e => e.rowid == m.rowid && ftsMatch q e)

/-- `SimpleMemory.recall` (`src/memory.py`): select the rows joining a
matching FTS entry, `ORDER BY recency_score DESC`, `LIMIT ?` (negative
SQLite LIMIT means unlimited).  The SQL also returns the computed
`age_days` and `recency_score` columns, recomputable from the row, so
the model returns the rows. -/
def recallMemories (q : List Char) (limit : Int) (now : ℚ) (db : MemDB) : List MemRow :=
  let matched := db.rows.filter (recallMatches q db)
  let sorted := matched.insertionSort (rankRel now)
  if limit < 0 then sorted else sorted.take limit.toNat

/-- Validation layer: errors surfaced by `validate_input` and the
explicit checks of the tool functions in `src/simplecontext.py`
(`ValueError`, reported as `InvalidInput`). -/
inductive SCError where
  | invalidInput
deriving DecidableEq

/-- `validate_input(content, field, max_length)` (`src/simplecontext.py`)
restricted to its string checks: rejects content that is empty after
stripping whitespace, or longer than `max_length`. -/
def validate_input (content : List Char) (maxLength : Nat) : Except SCError Unit :=
  if (pyStrip content).isEmpty then .error .invalidInput
  else if maxLength < content.length then .error .invalidInput
  else .ok ()

/-- The `remember` MCP tool (`src/simplecontext.py`): validate the
content (max 100000 chars), then call `SimpleMemory.remember` with
default importance `"medium"`; a `ValueError` leaves the store
untouched. -/
def remember_tool (content : List Char) (tags : List (List Char)) (t : ℚ)
    (db : MemDB) : Except SCError MemDB :=
  match validate_input content 100000 with
  | .error e => .error e
  | .ok _ => .ok (remember content tags ("medium".toList) t db)

/-- The `recall` MCP tool (`src/simplecontext.py`): validate the query
(max 1000 chars), reject `limit < 1 or limit > 100` with a `ValueError`,
then call `SimpleMemory.recall`. -/
def recall_tool (q : List Char) (limit : Int) (now : ℚ)
    (db : MemDB) : Except SCError (List MemRow) :=
  match validate_input q 1000 with
  | .error e => .error e
  | .ok _ =>
    if limit < 1 ∨ 100 < limit then .error .invalidInput
    else .ok (recallMemories q limit now db)

/-- Scanning the keyword list returns `"debugging"` exactly when some
keyword is contained in the lowered message. -/
lemma detectModeAux_eq_debugging (low : List Char) :
    ∀ ks : List (List Char),
      (detectModeAux low ks = "debugging".toList ↔
        ks.any (fun k => containsSub k low) = true)
  | [] => by simp [detectModeAux]
  | k :: ks => by
    by_cases h : containsSub k low = true
    · simp [detectModeAux, h]
    · have hb : containsSub k low = false := by simpa using h
      rw [show detectModeAux low (k :: ks) = detectModeAux low ks from by
            simp [detectModeAux, hb],
          detectModeAux_eq_debugging low ks]
      simp [hb]

/-- Scanning the keyword list returns either `"debugging"` or `"coding"`. -/
lemma detectModeAux_dichotomy (low : List Char) :
    ∀ ks : List (List Char),
      detectModeAux low ks = "debugging".toList ∨ detectModeAux low ks = "coding".toList
  | [] => Or.inr rfl
  | k :: ks => by
    by_cases h : containsSub k low
    · exact Or.inl (by simp [detectModeAux, h])
    · simpa [detectModeAux, h] using detectModeAux_dichotomy low ks

/-- C8: `classify` (the source's `detect_mode`) is a deterministic
case-insensitive scan of the message against the fixed
`DEBUG_KEYWORDS` list: it returns `debugging` exactly when some keyword
occurs in the lowered message and `coding` otherwise, and on the three
concrete messages of the spec it returns `debugging`, `coding`,
`debugging` respectively. -/
theorem detect_mode_keyword_scan :
    (∀ message : List Char,
      (detect_mode message = "debugging".toList ↔
        DEBUG_KEYWORDS.any (fun k => containsSub k (lowerStr message)) = true) ∧
      (detect_mode message = "debugging".toList ∨
        detect_mode message = "coding".toList)) ∧
    detect_mode ("The tests are failing".toList) = "debugging".toList ∧
    detect_mode ("Add a login feature".toList) = "coding".toList ∧
    detect_mode ("Fix the bug in auth.py".toList) = "debugging".toList := by
  refine ⟨fun message => ⟨?_, ?_⟩, by decide, by decide, by decide⟩
  · exact detectModeAux_eq_debugging (lowerStr message) DEBUG_KEYWORDS
  · exact detectModeAux_dichotomy (lowerStr message) DEBUG_KEYWORDS

/-- The budget table entry for `"coding"`. -/
lemma budget_coding :
    get_attention_budget ("coding".toList) =
      [("memories".toList, 30/100), ("artifacts".toList, 30/100),
       ("session".toList, 25/100), ("errors".toList, 10/100),
       ("goal".toList, 5/100)] := rfl

/-- The budget table entry for `"debugging"`. -/
lemma budget_debugging :
    get_attention_budget ("debugging".toList) =
      [("errors".toList, 50/100), ("session".toList, 25/100),
       ("memories".toList, 15/100), ("artifacts".toList, 10/100),
       ("goal".toList, 0)] := rfl

/-- C9: for each of the two modes of the fixed budget table, the five
category fractions returned by `get_attention_budget` sum to exactly 1
(the Python float literals read as exact rationals, which is within any
floating-point epsilon of 1.0). -/
theorem attention_budget_sums_to_one :
    ((get_attention_budget ("coding".toList)).map Prod.snd).sum = 1 ∧
    ((get_attention_budget ("debugging".toList)).map Prod.snd).sum = 1 := by
  rw [budget_coding, budget_debugging]
  norm_num

/-- Counting artifacts by name after a `store`: the stored name now has
exactly one row, any other name keeps its count. -/
lemma artStore_countP (name c : List Char) (t : ℚ) (arts : List Artifact) (n : List Char) :
    (artStore name c t arts).countP (fun a => a.name == n) =
      if name = n then 1 else arts.countP (fun a => a.name == n) := by
  unfold artStore
  rw [List.countP_append, List.countP_filter]
  by_cases h : name = n
  · subst h
    have hz : (arts.countP fun a => (a.name == name) && !(a.name == name)) = 0 := by
      rw [List.countP_eq_zero]
      intro a _
      cases a.name == name <;> simp
    simp [hz, List.countP_cons]
  · have he : (arts.countP fun a => (a.name == n) && !(a.name == name)) =
        arts.countP (fun a => a.name == n) := by
      apply List.countP_congr
      intro a _
      by_cases hn : a.name = n
      · have hnam : (a.name == name) = false := by
          rw [beq_eq_false_iff_ne, hn]
          exact fun hc => h hc.symm
        simp [hn, hnam]
        exact fun hc => h hc.symm
      · simp [hn]
    have hone : List.countP (fun a => a.name == n)
        [(⟨name, c, c.length, t⟩ : Artifact)] = 0 := by
      simp [List.countP_cons, h]
    simp [he, hone, h]

/-- C6: storing twice under one name is an upsert: afterwards exactly one
artifact row carries that name, `retrieve` returns the second content,
the artifact count does not change between the two calls, and the
at-most-one-row-per-name invariant is preserved. -/
theorem store_upsert_semantics (arts : List Artifact) (name c1 c2 : List Char) (t1 t2 : ℚ) :
    ((artStore name c2 t2 (artStore name c1 t1 arts)).filter
        (fun a => a.name == name)).length = 1 ∧
    artRetrieve name (artStore name c2 t2 (artStore name c1 t1 arts)) = some c2 ∧
    (artStore name c2 t2 (artStore name c1 t1 arts)).length =
      (artStore name c1 t1 arts).length ∧
    ((∀ n, arts.countP (fun a => a.name == n) ≤ 1) →
      ∀ n, (artStore name c2 t2 (artStore name c1 t1 arts)).countP
        (fun a => a.name == n) ≤ 1) := by
  refine ⟨?_, ?_, ?_, ?_⟩
  · rw [← List.countP_eq_length_filter, artStore_countP]
    simp
  · have ha2 : artStore name c2 t2 (artStore name c1 t1 arts) =
        (artStore name c1 t1 arts).filter (fun a => !(a.name == name)) ++
          [⟨name, c2, c2.length, t2⟩] := rfl
    have hnone : ((artStore name c1 t1 arts).filter
        (fun a => !(a.name == name))).find? (fun a => a.name == name) = none := by
      rw [List.find?_eq_none]
      intro a ha
      have h2 := (List.mem_filter.mp ha).2
      simpa using h2
    unfold artRetrieve
    rw [ha2, List.find?_append, hnone]
    simp [List.find?]
  · have ha1 : artStore name c1 t1 arts =
        arts.filter (fun a => !(a.name == name)) ++ [⟨name, c1, c1.length, t1⟩] := rfl
    have ha2 : artStore name c2 t2 (artStore name c1 t1 arts) =
        (artStore name c1 t1 arts).filter (fun a => !(a.name == name)) ++
          [⟨name, c2, c2.length, t2⟩] := rfl
    rw [ha2, ha1, List.filter_append, List.filter_filter]
    have h1 : (arts.filter fun a => !(a.name == name) && !(a.name == name)) =
        arts.filter (fun a => !(a.name == name)) := by
      apply List.filter_congr
      intro a _
      cases a.name == name <;> simp
    have h2 : List.filter (fun a => !(a.name == name))
        [(⟨name, c1, c1.length, t1⟩ : Artifact)] = [] := by
      simp [List.filter]
    rw [h1, h2]
    simp
  · intro hinv n
    rw [artStore_countP, artStore_countP]
    split
    · omega
    · exact hinv n

/-- Applying 'map set-resolved' to rows without the id is the identity. -/
lemma resolve_map_id (rows : List ErrRow) (eid : Nat) (h : ∀ r ∈ rows, r.id ≠ eid) :
    rows.map (fun r => if r.id == eid then { r with resolved := true } else r) = rows := by
  induction rows with
  | nil => rfl
  | cons r rs ih =>
    have hr : (r.id == eid) = false := by
      simpa using h r (List.mem_cons_self r rs)
    simp only [List.map_cons, hr, Bool.false_eq_true, if_neg, List.cons.injEq]
    refine ⟨by simp [hr], ih (fun x hx => h x (List.mem_cons_of_mem r hx))⟩

/-- C7: `resolve_error` on an id absent from the error table returns
`false` and mutates no row; on a present id it returns `true` and sets
that record's `resolved` flag, after which `get_recent_errors` with
`unresolved_only = True` no longer includes any record with that id. -/
theorem resolve_error_semantics (db : ErrDB) (eid : Nat) :
    ((∀ r ∈ db.rows, r.id ≠ eid) → resolve_error eid db = (db, false)) ∧
    ((∃ r ∈ db.rows, r.id = eid) →
      (resolve_error eid db).2 = true ∧
      (∀ r ∈ (resolve_error eid db).1.rows, r.id = eid → r.resolved = true) ∧
      ∀ limit : Int, ∀ r ∈ get_recent_errors limit true (resolve_error eid db).1,
        r.id ≠ eid) := by
  constructor
  · intro h
    unfold resolve_error
    have hz : db.rows.countP (fun r => r.id == eid) = 0 := by
      rw [List.countP_eq_zero]
      intro r hr
      simpa using h r hr
    rw [resolve_map_id db.rows eid h, hz]
    rfl
  · rintro ⟨r0, hr0, hid0⟩
    have hresolved : ∀ r ∈ (resolve_error eid db).1.rows, r.id = eid → r.resolved = true := by
      intro r hr hid
      unfold resolve_error at hr
      simp only at hr
      rcases List.mem_map.mp hr with ⟨r1, _, hmap⟩
      by_cases h1 : r1.id = eid
      · rw [← hmap]
        simp [h1]
      · rw [← hmap] at hid ⊢
        simp only [h1, if_neg, beq_iff_eq] at hid ⊢
        exact absurd hid h1
    refine ⟨?_, hresolved, ?_⟩
    · unfold resolve_error
      simp only [decide_eq_true_eq, List.countP_pos_iff]
      exact ⟨r0, hr0, by simpa using hid0⟩
    · intro limit r hr hid
      have hmem : r ∈ (resolve_error eid db).1.rows ∧ r.resolved = false := by
        unfold get_recent_errors at hr
        simp only [if_pos, if_neg] at hr
        have hr2 : r ∈ ((resolve_error eid db).1.rows.filter
            (fun r => !r.resolved)).insertionSort (fun a b => b.created_at ≤ a.created_at) := by
          rcases lt_or_le limit 0 with hl | hl
          · simpa [hl] using hr
          · have : ¬ limit < 0 := not_lt.mpr hl
            rw [if_neg this] at hr
            exact List.mem_of_mem_take hr
        have hr3 := (List.mem_insertionSort _).mp hr2
        have := List.mem_filter.mp hr3
        exact ⟨this.1, by simpa using this.2⟩
      have := hresolved r hmem.1 hid
      rw [hmem.2] at this
      exact Bool.false_ne_true this

/-- Witness for C6 at a concrete vault: storing `v1` then `v2` under
`db.sql` starting from the empty table. -/
theorem store_upsert_semantics_witness :
    ((artStore ("db.sql".toList) ("v2".toList) 0
        (artStore ("db.sql".toList) ("v1".toList) 0 [])).filter
      (fun a => a.name == "db.sql".toList)).length = 1 ∧
    artRetrieve ("db.sql".toList)
      (artStore ("db.sql".toList) ("v2".toList) 0
        (artStore ("db.sql".toList) ("v1".toList) 0 [])) = some ("v2".toList) ∧
    (artStore ("db.sql".toList) ("v2".toList) 0
      (artStore ("db.sql".toList) ("v1".toList) 0 [])).length =
      (artStore ("db.sql".toList) ("v1".toList) 0 []).length ∧
    ∀ n, (artStore ("db.sql".toList) ("v2".toList) 0
      (artStore ("db.sql".toList) ("v1".toList) 0 [])).countP
        (fun a => a.name == n) ≤ 1 :=
  have h := store_upsert_semantics [] ("db.sql".toList) ("v1".toList) ("v2".toList) 0 0
  ⟨h.1, h.2.1, h.2.2.1, h.2.2.2 (fun n => by simp)⟩

/-- Witness for C7 at a concrete journal: resolving the absent id 2
mutates nothing and returns false; resolving the present id 1 returns
true, marks it resolved, and removes it from the unresolved listing. -/
theorem resolve_error_semantics_witness :
    resolve_error 2 ⟨[⟨1, "npm".toList, "EACCES".toList, [], 0, false⟩], 2⟩ =
      (⟨[⟨1, "npm".toList, "EACCES".toList, [], 0, false⟩], 2⟩, false) ∧
    ((resolve_error 1 ⟨[⟨1, "npm".toList, "EACCES".toList, [], 0, false⟩], 2⟩).2 = true ∧
     (∀ r ∈ (resolve_error 1
         ⟨[⟨1, "npm".toList, "EACCES".toList, [], 0, false⟩], 2⟩).1.rows,
       r.id = 1 → r.resolved = true) ∧
     ∀ limit : Int, ∀ r ∈ get_recent_errors limit true
         (resolve_error 1 ⟨[⟨1, "npm".toList, "EACCES".toList, [], 0, false⟩], 2⟩).1,
       r.id ≠ 1) :=
  ⟨(resolve_error_semantics ⟨[⟨1, "npm".toList, "EACCES".toList, [], 0, false⟩], 2⟩ 2).1
     (by decide),
   (resolve_error_semantics ⟨[⟨1, "npm".toList, "EACCES".toList, [], 0, false⟩], 2⟩ 1).2
     ⟨⟨1, "npm".toList, "EACCES".toList, [], 0, false⟩, List.mem_cons_self _ _, rfl⟩⟩

/-- C10 (confirmed): the `%` and `_` characters of a `forget` query act as
SQL LIKE wildcards: the query `hello%world` deletes the memory whose
content is `hello cruel world`, although it is not a literal substring of
that content. -/
theorem forget_interprets_like_wildcards :
    containsSub ("hello%world".toList) ("hello cruel world".toList) = false ∧
    (forget ("hello%world".toList)
      ⟨[⟨1, "hello cruel world".toList, [], 0, "medium".toList⟩],
       [⟨1, "hello cruel world".toList, []⟩]⟩).2 = 1 ∧
    (forget ("hello%world".toList)
      ⟨[⟨1, "hello cruel world".toList, [], 0, "medium".toList⟩],
       [⟨1, "hello cruel world".toList, []⟩]⟩).1.rows = [] := by
  refine ⟨by decide, by decide, by decide⟩

/-- A query containing neither `%` nor `_`, so that SQLite LIKE treats
every character literally (up to ASCII case). -/
def noWildcard (q : List Char) : Bool :=
  q.all (fun c => !(c == '%') && !(c == '_'))

/-- Case-insensitive (ASCII) substring containment: what the LIKE pattern
`%q%` tests for a wildcard-free `q`. -/
def containsSubCI (needle hay : List Char) : Bool :=
  containsSub (lowerStr needle) (lowerStr hay)

/-- Some suffix of any string is empty. -/
lemma tails_any_isEmpty (s : List Char) : s.tails.any (fun t => t.isEmpty) = true := by
  induction s with
  | nil => rfl
  | cons c s ih => simp [List.tails_cons, ih]

/-- Pointwise-equal predicates give equal `any`. -/
lemma list_any_ext {α : Type} (l : List α) (p q : α → Bool) (h : ∀ a, p a = q a) :
    l.any p = l.any q := by
  induction l with
  | nil => rfl
  | cons a l ih => simp [h a, ih]

/-- A wildcard-free pattern followed by a single `%` matches exactly the
strings it is a case-insensitive prefix of. -/
lemma likeMatch_litPercent (q : List Char) (hq : noWildcard q = true) :
    ∀ s : List Char,
      likeMatch (q ++ ['%']) s = (lowerStr q).isPrefixOf (lowerStr s) := by
  induction q with
  | nil =>
    intro s
    have : likeMatch ['%'] s = s.tails.any (fun t => likeMatch [] t) := by
      simp [likeMatch]
    rw [List.nil_append, this]
    have he : s.tails.any (fun t => likeMatch [] t) = s.tails.any (fun t => t.isEmpty) :=
      list_any_ext _ _ _ (fun t => rfl)
    rw [he, tails_any_isEmpty]
    simp [lowerStr, List.isPrefixOf]
  | cons c q ih =>
    intro s
    have hc := by simpa using (List.all_eq_true.mp hq) c (List.mem_cons_self c q)
    have hq2 : noWildcard q = true := by
      apply List.all_eq_true.mpr
      intro x hx
      exact (List.all_eq_true.mp hq) x (List.mem_cons_of_mem c hx)
    have hne1 : ¬ c = '%' := by
      intro hcc
      rw [hcc] at hc
      exact absurd rfl hc.1
    have hne2 : ¬ c = '_' := by
      intro hcc
      rw [hcc] at hc
      exact absurd rfl hc.2
    cases s with
    | nil =>
      simp only [List.cons_append, likeMatch, if_neg hne1, if_neg hne2]
      simp [lowerStr, List.isPrefixOf]
    | cons d s1 =>
      simp only [List.cons_append, likeMatch, if_neg hne1, if_neg hne2, List.append_eq]
      rw [ih hq2 s1]
      simp [lowerStr, List.isPrefixOf]

/-- Taking suffixes commutes with mapping a function over the string. -/
lemma tails_map (f : Char → Char) (l : List Char) :
    (l.map f).tails = l.tails.map (List.map f) := by
  induction l with
  | nil => rfl
  | cons c l ih => simp [List.tails_cons, ih]

/-- Bridge: for a wildcard-free query, the `forget` LIKE pattern `%q%`
tests case-insensitive substring containment. -/
lemma likeMatch_likePat_eq_containsSubCI (q : List Char) (hq : noWildcard q = true)
    (s : List Char) : likeMatch (likePat q) s = containsSubCI q s := by
  have h1 : likeMatch (likePat q) s = s.tails.any (fun t => likeMatch (q ++ ['%']) t) := by
    simp [likePat, likeMatch]
  rw [h1]
  have h2 : s.tails.any (fun t => likeMatch (q ++ ['%']) t) =
      s.tails.any (fun t => (lowerStr q).isPrefixOf (lowerStr t)) :=
    list_any_ext _ _ _ (fun t => likeMatch_litPercent q hq t)
  rw [h2]
  unfold containsSubCI containsSub
  rw [show lowerStr s = s.map lowerChar from rfl, tails_map, List.any_map]
  rfl

/-- C2 counterexample: SQLite LIKE is case-insensitive on ASCII, so
`forget("mysql")` deletes a memory whose content is `MySQL database`,
which does not contain `mysql` as a case-sensitive substring — refuting
the claim that exactly the case-sensitive containment matches are
deleted. -/
theorem forget_not_case_sensitive_cex :
    containsSub ("mysql".toList) ("MySQL database".toList) = false ∧
    (forget ("mysql".toList)
      ⟨[⟨1, "MySQL database".toList, [], 0, "medium".toList⟩],
       [⟨1, "MySQL database".toList, []⟩]⟩).2 = 1 ∧
    (forget ("mysql".toList)
      ⟨[⟨1, "MySQL database".toList, [], 0, "medium".toList⟩],
       [⟨1, "MySQL database".toList, []⟩]⟩).1.rows = [] := by
  refine ⟨by decide, by decide, by decide⟩

/-- C2 (amended): `forget(q)` deletes exactly the memories whose content
matches the SQLite LIKE pattern `%q%` — ASCII-case-insensitively and with
`%`/`_` in `q` acting as wildcards — and returns the number deleted (0 is
an ordinary return value, produced exactly when nothing matches); for a
wildcard-free `q` this is precisely case-insensitive substring
containment. -/
theorem forget_deletes_like_containment (db : MemDB) (q : List Char) :
    (forget q db).2 =
      (db.rows.filter (fun m => likeMatch (likePat q) m.content)).length ∧
    (forget q db).1.rows =
      db.rows.filter (fun m => !likeMatch (likePat q) m.content) ∧
    ((forget q db).2 = 0 ↔
      ∀ m ∈ db.rows, likeMatch (likePat q) m.content = false) ∧
    (noWildcard q = true →
      (forget q db).2 =
        (db.rows.filter (fun m => containsSubCI q m.content)).length ∧
      (forget q db).1.rows =
        db.rows.filter (fun m => !containsSubCI q m.content)) := by
  refine ⟨rfl, rfl, ?_, ?_⟩
  · show (db.rows.filter (fun m => likeMatch (likePat q) m.content)).length = 0 ↔ _
    rw [List.length_eq_zero, List.filter_eq_nil_iff]
    constructor
    · intro h m hm
      simpa using h m hm
    · intro h m hm
      simp [h m hm]
  · intro hq
    constructor
    · show (db.rows.filter (fun m => likeMatch (likePat q) m.content)).length = _
      congr 1
      apply List.filter_congr
      intro m _
      rw [likeMatch_likePat_eq_containsSubCI q hq]
    · show db.rows.filter (fun m => !likeMatch (likePat q) m.content) = _
      apply List.filter_congr
      intro m _
      rw [likeMatch_likePat_eq_containsSubCI q hq]

/-- Witness for C2's amended theorem at a concrete store: deleting with
the wildcard-free query `sql` from a two-row store removes exactly the
row whose content contains `sql` case-insensitively. -/
theorem forget_deletes_like_containment_witness :
    noWildcard ("sql".toList) = true ∧
    ((forget ("sql".toList)
        ⟨[⟨1, "Uses PostgreSQL".toList, [], 0, "medium".toList⟩,
          ⟨2, "Uses Redis".toList, [], 0, "medium".toList⟩],
         [⟨1, "Uses PostgreSQL".toList, []⟩, ⟨2, "Uses Redis".toList, []⟩]⟩).2 =
      (([⟨1, "Uses PostgreSQL".toList, [], 0, "medium".toList⟩,
         ⟨2, "Uses Redis".toList, [], 0, "medium".toList⟩] : List MemRow).filter
          (fun m => containsSubCI ("sql".toList) m.content)).length ∧
     (forget ("sql".toList)
        ⟨[⟨1, "Uses PostgreSQL".toList, [], 0, "medium".toList⟩,
          ⟨2, "Uses Redis".toList, [], 0, "medium".toList⟩],
         [⟨1, "Uses PostgreSQL".toList, []⟩, ⟨2, "Uses Redis".toList, []⟩]⟩).1.rows =
      ([⟨1, "Uses PostgreSQL".toList, [], 0, "medium".toList⟩,
        ⟨2, "Uses Redis".toList, [], 0, "medium".toList⟩] : List MemRow).filter
        (fun m => !containsSubCI ("sql".toList) m.content)) :=
  ⟨by decide,
   (forget_deletes_like_containment
      ⟨[⟨1, "Uses PostgreSQL".toList, [], 0, "medium".toList⟩,
        ⟨2, "Uses Redis".toList, [], 0, "medium".toList⟩],
       [⟨1, "Uses PostgreSQL".toList, []⟩, ⟨2, "Uses Redis".toList, []⟩]⟩
      ("sql".toList)).2.2.2 (by decide)⟩

/-- C4 counterexample: `SimpleMemory.remember` itself performs no
validation: on whitespace-only content (empty after trimming) it raises
nothing and stores one Memory row. -/
theorem remember_accepts_empty_content_cex :
    pyStrip (" ".toList) = [] ∧
    (remember (" ".toList) [] ("medium".toList) 0 initDB).rows.length = 1 := by
  refine ⟨by decide, by decide⟩

/-- C4 (amended): rejection of empty-after-trim content happens only in
the collaborator layer: the `remember` MCP tool (`validate_input` in
`src/simplecontext.py`) fails with `InvalidInput` and stores nothing,
while the Memory Ledger's own `remember` (`src/memory.py`) performs no
such check and stores a row even for content that is empty after
trimming. -/
theorem remember_validation_in_tool_layer (content : List Char) (tags : List (List Char))
    (t : ℚ) (db : MemDB) (h : pyStrip content = []) :
    remember_tool content tags t db = .error .invalidInput ∧
    ∀ imp, (remember content tags imp t db).rows =
      db.rows ++ [⟨db.nextRowid, content, tags, t, imp⟩] := by
  constructor
  · unfold remember_tool validate_input
    rw [h]
    rfl
  · intro imp
    rfl

/-- Witness for C4's amended theorem: whitespace-only content is rejected
by the tool layer yet stored by the ledger. -/
theorem remember_validation_in_tool_layer_witness :
    pyStrip (" ".toList) = [] ∧
    (remember_tool (" ".toList) [] 0 initDB = .error .invalidInput ∧
     ∀ imp, (remember (" ".toList) [] imp 0 initDB).rows =
       initDB.rows ++ [⟨initDB.nextRowid, " ".toList, [], 0, imp⟩]) :=
  ⟨by decide, remember_validation_in_tool_layer (" ".toList) [] 0 initDB (by decide)⟩

/-- The recency score is strictly increasing in `created_at` for
timestamps not in the future of `now`. -/
lemma recencyScore_lt_of_lt {now a b : ℚ} (hab : a < b) (hb : b ≤ now) :
    recencyScore now a < recencyScore now b := by
  unfold recencyScore
  have hra : 1 + ((now - a) / 86400) * (1 / 10) = 1 + (now - a) * (1 / 864000) := by ring
  have hrb : 1 + ((now - b) / 86400) * (1 / 10) = 1 + (now - b) * (1 / 864000) := by ring
  rw [hra, hrb]
  have h1 : (0:ℚ) < 1 + (now - b) * (1 / 864000) := by
    have h0 : (0:ℚ) ≤ (now - b) * (1 / 864000) :=
      mul_nonneg (by linarith) (by norm_num)
    linarith
  have h2 : 1 + (now - b) * (1 / 864000) < 1 + (now - a) * (1 / 864000) := by
    have := mul_lt_mul_of_pos_right (show now - b < now - a by linarith)
      (show (0:ℚ) < 1 / 864000 by norm_num)
    linarith
  exact one_div_lt_one_div_of_lt h1 h2

/-- Score comparison reflects timestamp comparison (for past timestamps). -/
lemma created_le_of_score_le {now a b : ℚ} (hb : b ≤ now)
    (h : recencyScore now b ≤ recencyScore now a) : b ≤ a := by
  by_contra hc
  push_neg at hc
  have := recencyScore_lt_of_lt hc hb
  linarith

/-- The ranking relation always puts the larger score first. -/
lemma rankRel_score_le {now : ℚ} {a b : MemRow} (h : rankRel now a b) :
    recencyScore now b.created_at ≤ recencyScore now a.created_at := by
  rcases h with h | ⟨he, _⟩
  · exact le_of_lt h
  · exact le_of_eq he.symm

/-- The ranking relation is total. -/
lemma rankRel_total (now : ℚ) (a b : MemRow) : rankRel now a b ∨ rankRel now b a := by
  rcases lt_trichotomy (recencyScore now a.created_at) (recencyScore now b.created_at)
    with h | h | h
  · exact Or.inr (Or.inl h)
  · rcases le_total b.rowid a.rowid with hr | hr
    · exact Or.inl (Or.inr ⟨h, hr⟩)
    · exact Or.inr (Or.inr ⟨h.symm, hr⟩)
  · exact Or.inl (Or.inl h)

/-- The ranking relation is transitive. -/
lemma rankRel_trans (now : ℚ) (a b c : MemRow)
    (h1 : rankRel now a b) (h2 : rankRel now b c) : rankRel now a c := by
  rcases h1 with h1 | ⟨h1e, h1r⟩ <;> rcases h2 with h2 | ⟨h2e, h2r⟩
  · exact Or.inl (lt_trans h2 h1)
  · exact Or.inl (by rw [← h2e]; exact h1)
  · exact Or.inl (by rw [h1e]; exact h2)
  · exact Or.inr ⟨h1e.trans h2e, le_trans h2r h1r⟩

/-- Insertion sort by the ranking relation yields a rank-sorted list. -/
lemma sorted_insertionSort_rankRel (now : ℚ) (l : List MemRow) :
    (l.insertionSort (rankRel now)).Pairwise (rankRel now) := by
  letI : IsTotal MemRow (rankRel now) := ⟨rankRel_total now⟩
  letI : IsTrans MemRow (rankRel now) := ⟨fun a b c => rankRel_trans now a b c⟩
  exact List.sorted_insertionSort (rankRel now) l

/-- In a rank-sorted list, a strictly higher-scored row sits at a strictly
smaller index. -/
lemma pairwise_index_lt {now : ℚ} {l : List MemRow} (hp : l.Pairwise (rankRel now))
    {m1 m2 : MemRow}
    (hlt : recencyScore now m1.created_at < recencyScore now m2.created_at)
    (i j : Fin l.length) (hi : l.get i = m2) (hj : l.get j = m1) : (i : ℕ) < (j : ℕ) := by
  rcases lt_trichotomy (i : ℕ) (j : ℕ) with h | h | h
  · exact h
  · exfalso
    have hm : m2 = m1 := by
      rw [← hi, ← hj]
      congr 1
      exact Fin.ext h
    rw [hm] at hlt
    exact absurd hlt (lt_irrefl _)
  · exfalso
    have hr := List.pairwise_iff_get.mp hp j i (Fin.lt_def.mpr h)
    rw [hi, hj] at hr
    have := rankRel_score_le hr
    linarith

/-- In a rank-sorted list, the truncation to `n` elements keeps any row
whose score strictly exceeds that of a kept row. -/
lemma mem_take_of_score_lt {now : ℚ} {l : List MemRow} (hp : l.Pairwise (rankRel now))
    {m1 m2 : MemRow}
    (hlt : recencyScore now m1.created_at < recencyScore now m2.created_at)
    (hm2 : m2 ∈ l) (n : ℕ) (hm1 : m1 ∈ l.take n) : m2 ∈ l.take n := by
  obtain ⟨j0, hj0⟩ := List.get_of_mem hm1
  have hj0n : (j0 : ℕ) < n := lt_of_lt_of_le j0.isLt (List.length_take_le n l)
  have hj0l : (j0 : ℕ) < l.length :=
    lt_of_lt_of_le j0.isLt (List.take_sublist n l).length_le
  have hjget : l.get ⟨j0, hj0l⟩ = m1 := by
    rw [← hj0, List.get_eq_getElem, List.get_eq_getElem, List.getElem_take]
  obtain ⟨i0, hi0⟩ := List.get_of_mem hm2
  have hij : (i0 : ℕ) < (j0 : ℕ) := pairwise_index_lt hp hlt i0 ⟨j0, hj0l⟩ hi0 hjget
  have hi0n : (i0 : ℕ) < n := lt_trans hij hj0n
  have hi0t : (i0 : ℕ) < (l.take n).length := by
    rw [List.length_take]
    exact lt_min hi0n i0.isLt
  have hget : (l.take n).get ⟨i0, hi0t⟩ = m2 := by
    rw [List.get_eq_getElem, List.getElem_take, ← hi0, List.get_eq_getElem]
  exact hget ▸ List.get_mem _ _ _

/-- C3: for every query and positive limit, `recall` returns at most
`limit` rows, ordered by the recency score `1/(1 + age_days * 0.1)`
descending (equivalently, `created_at` non-increasing — score ties are
exactly `created_at` ties for non-future timestamps, so the descending
`created_at` tie-break imposes nothing further); and of two matching
memories, the one with the strictly later `created_at` is ranked at or
above the earlier one: if the earlier is returned so is the later, at a
strictly smaller index. -/
theorem recall_ranked_by_recency_decay (db : MemDB) (q : List Char) (limit : Int)
    (now : ℚ) (hlim : 0 < limit) (hnow : ∀ m ∈ db.rows, m.created_at ≤ now) :
    (recallMemories q limit now db).length ≤ limit.toNat ∧
    (recallMemories q limit now db).Pairwise
      (fun a b => recencyScore now b.created_at ≤ recencyScore now a.created_at) ∧
    (recallMemories q limit now db).Pairwise
      (fun a b => b.created_at ≤ a.created_at) ∧
    (∀ m1 m2 : MemRow, m1 ∈ db.rows → m2 ∈ db.rows →
      recallMatches q db m1 = true → recallMatches q db m2 = true →
      m1.created_at < m2.created_at →
      m1 ∈ recallMemories q limit now db →
      m2 ∈ recallMemories q limit now db ∧
      ∀ (i j : Fin (recallMemories q limit now db).length),
        (recallMemories q limit now db).get i = m2 →
        (recallMemories q limit now db).get j = m1 → (i : ℕ) < (j : ℕ)) := by
  have hnn : ¬ limit < 0 := by omega
  have hout : recallMemories q limit now db =
      ((db.rows.filter (recallMatches q db)).insertionSort (rankRel now)).take
        limit.toNat := by
    unfold recallMemories
    rw [if_neg hnn]
  have hsorted := sorted_insertionSort_rankRel now (db.rows.filter (recallMatches q db))
  have houtp : (recallMemories q limit now db).Pairwise (rankRel now) := by
    rw [hout]
    exact List.Pairwise.sublist (List.take_sublist _ _) hsorted
  have hsub : ∀ m ∈ recallMemories q limit now db, m ∈ db.rows := by
    intro m hm
    rw [hout] at hm
    exact List.mem_of_mem_filter
      ((List.mem_insertionSort _).mp (List.mem_of_mem_take hm))
  refine ⟨?_, ?_, ?_, ?_⟩
  · rw [hout]
    exact List.length_take_le _ _
  · exact houtp.imp rankRel_score_le
  · apply List.pairwise_iff_get.mpr
    intro i j hij
    have hr := List.pairwise_iff_get.mp houtp i j hij
    have hs := rankRel_score_le hr
    exact created_le_of_score_le
      (hnow _ (hsub _ (List.get_mem _ _ _))) hs
  · intro m1 m2 h1 h2 hq1 hq2 hlt hm1in
    have hsc : recencyScore now m1.created_at < recencyScore now m2.created_at :=
      recencyScore_lt_of_lt hlt (hnow m2 h2)
    have hm2sorted : m2 ∈ (db.rows.filter (recallMatches q db)).insertionSort
        (rankRel now) :=
      (List.mem_insertionSort _).mpr (List.mem_filter.mpr ⟨h2, hq2⟩)
    rw [hout] at hm1in
    have hm2in := mem_take_of_score_lt hsorted hsc hm2sorted limit.toNat hm1in
    refine ⟨by rw [hout]; exact hm2in, ?_⟩
    intro i j hi hj
    exact pairwise_index_lt houtp hsc i j hi hj

/-- Witness for C3 at a concrete two-row store: querying `fact` with
limit 2 a day after the first insert. -/
theorem recall_ranked_by_recency_decay_witness :
    (recallMemories ("fact".toList) 2 86400
      ⟨[⟨1, "old fact".toList, [], 0, "medium".toList⟩,
        ⟨2, "new fact".toList, [], 86400, "medium".toList⟩],
       [⟨1, "old fact".toList, []⟩, ⟨2, "new fact".toList, []⟩]⟩).length ≤
        (2 : Int).toNat ∧
    (recallMemories ("fact".toList) 2 86400
      ⟨[⟨1, "old fact".toList, [], 0, "medium".toList⟩,
        ⟨2, "new fact".toList, [], 86400, "medium".toList⟩],
       [⟨1, "old fact".toList, []⟩, ⟨2, "new fact".toList, []⟩]⟩).Pairwise
      (fun a b => recencyScore 86400 b.created_at ≤ recencyScore 86400 a.created_at) ∧
    (recallMemories ("fact".toList) 2 86400
      ⟨[⟨1, "old fact".toList, [], 0, "medium".toList⟩,
        ⟨2, "new fact".toList, [], 86400, "medium".toList⟩],
       [⟨1, "old fact".toList, []⟩, ⟨2, "new fact".toList, []⟩]⟩).Pairwise
      (fun a b => b.created_at ≤ a.created_at) ∧
    (∀ m1 m2 : MemRow,
      m1 ∈ ([⟨1, "old fact".toList, [], 0, "medium".toList⟩,
             ⟨2, "new fact".toList, [], 86400, "medium".toList⟩] : List MemRow) →
      m2 ∈ ([⟨1, "old fact".toList, [], 0, "medium".toList⟩,
             ⟨2, "new fact".toList, [], 86400, "medium".toList⟩] : List MemRow) →
      recallMatches ("fact".toList)
        ⟨[⟨1, "old fact".toList, [], 0, "medium".toList⟩,
          ⟨2, "new fact".toList, [], 86400, "medium".toList⟩],
         [⟨1, "old fact".toList, []⟩, ⟨2, "new fact".toList, []⟩]⟩ m1 = true →
      recallMatches ("fact".toList)
        ⟨[⟨1, "old fact".toList, [], 0, "medium".toList⟩,
          ⟨2, "new fact".toList, [], 86400, "medium".toList⟩],
         [⟨1, "old fact".toList, []⟩, ⟨2, "new fact".toList, []⟩]⟩ m2 = true →
      m1.created_at < m2.created_at →
      m1 ∈ recallMemories ("fact".toList) 2 86400
        ⟨[⟨1, "old fact".toList, [], 0, "medium".toList⟩,
          ⟨2, "new fact".toList, [], 86400, "medium".toList⟩],
         [⟨1, "old fact".toList, []⟩, ⟨2, "new fact".toList, []⟩]⟩ →
      m2 ∈ recallMemories ("fact".toList) 2 86400
        ⟨[⟨1, "old fact".toList, [], 0, "medium".toList⟩,
          ⟨2, "new fact".toList, [], 86400, "medium".toList⟩],
         [⟨1, "old fact".toList, []⟩, ⟨2, "new fact".toList, []⟩]⟩ ∧
      ∀ (i j : Fin (recallMemories ("fact".toList) 2 86400
          ⟨[⟨1, "old fact".toList, [], 0, "medium".toList⟩,
            ⟨2, "new fact".toList, [], 86400, "medium".toList⟩],
           [⟨1, "old fact".toList, []⟩, ⟨2, "new fact".toList, []⟩]⟩).length),
        (recallMemories ("fact".toList) 2 86400
          ⟨[⟨1, "old fact".toList, [], 0, "medium".toList⟩,
            ⟨2, "new fact".toList, [], 86400, "medium".toList⟩],
           [⟨1, "old fact".toList, []⟩, ⟨2, "new fact".toList, []⟩]⟩).get i = m2 →
        (recallMemories ("fact".toList) 2 86400
          ⟨[⟨1, "old fact".toList, [], 0, "medium".toList⟩,
            ⟨2, "new fact".toList, [], 86400, "medium".toList⟩],
           [⟨1, "old fact".toList, []⟩, ⟨2, "new fact".toList, []⟩]⟩).get j = m1 →
        (i : ℕ) < (j : ℕ)) :=
  recall_ranked_by_recency_decay
    ⟨[⟨1, "old fact".toList, [], 0, "medium".toList⟩,
      ⟨2, "new fact".toList, [], 86400, "medium".toList⟩],
     [⟨1, "old fact".toList, []⟩, ⟨2, "new fact".toList, []⟩]⟩
    ("fact".toList) 2 86400 (by decide)
    (by
      intro m hm
      rcases List.mem_cons.mp hm with h | hm
      · rw [h]
        decide
      · rcases List.mem_cons.mp hm with h | hm
        · rw [h]
        · exact absurd hm (List.not_mem_nil m))

/-- C5: `recall` through the tool layer rejects every `limit ≤ 0` with
`InvalidInput`, while a query matching no memory is a normal empty
result: the core `recall` returns the empty sequence, and the tool layer
returns it without error for any validated query and in-range limit. -/
theorem recall_invalid_limit_empty_result (q : List Char) (limit : Int) (now : ℚ)
    (db : MemDB) :
    (limit ≤ 0 → recall_tool q limit now db = .error .invalidInput) ∧
    ((∀ m ∈ db.rows, recallMatches q db m = false) →
      recallMemories q limit now db = [] ∧
      (validate_input q 1000 = .ok () → 1 ≤ limit → limit ≤ 100 →
        recall_tool q limit now db = .ok [])) := by
  constructor
  · intro hle
    unfold recall_tool
    cases hv : validate_input q 1000 with
    | error e =>
      cases e
      rfl
    | ok u =>
      rw [if_pos (Or.inl (by omega : limit < 1))]
  · intro hnone
    have hfil : db.rows.filter (recallMatches q db) = [] := by
      apply List.filter_eq_nil_iff.mpr
      intro m hm
      rw [hnone m hm]
      exact Bool.false_ne_true
    have hempty : recallMemories q limit now db = [] := by
      unfold recallMemories
      rw [hfil]
      rcases lt_or_le limit 0 with h | h
      · rw [if_pos h]
        rfl
      · rw [if_neg (not_lt.mpr h)]
        exact List.take_nil
    refine ⟨hempty, ?_⟩
    intro hv h1 h100
    unfold recall_tool
    rw [hv]
    rw [if_neg (by push_neg; omega : ¬ (limit < 1 ∨ 100 < limit))]
    simp [hempty]

/-- Witness for C5: limit 0 is rejected; the query `nomatch` on a
one-row store yields an empty, non-error result with limit 5. -/
theorem recall_invalid_limit_empty_result_witness :
    recall_tool ("nomatch".toList) 0 0
      ⟨[⟨1, "hello".toList, [], 0, "medium".toList⟩],
       [⟨1, "hello".toList, []⟩]⟩ = .error .invalidInput ∧
    recallMemories ("nomatch".toList) 5 0
      ⟨[⟨1, "hello".toList, [], 0, "medium".toList⟩],
       [⟨1, "hello".toList, []⟩]⟩ = [] ∧
    recall_tool ("nomatch".toList) 5 0
      ⟨[⟨1, "hello".toList, [], 0, "medium".toList⟩],
       [⟨1, "hello".toList, []⟩]⟩ = .ok [] :=
  ⟨(recall_invalid_limit_empty_result ("nomatch".toList) 0 0
      ⟨[⟨1, "hello".toList, [], 0, "medium".toList⟩],
       [⟨1, "hello".toList, []⟩]⟩).1 (by decide),
   ((recall_invalid_limit_empty_result ("nomatch".toList) 5 0
      ⟨[⟨1, "hello".toList, [], 0, "medium".toList⟩],
       [⟨1, "hello".toList, []⟩]⟩).2 (by decide)).1,
   ((recall_invalid_limit_empty_result ("nomatch".toList) 5 0
      ⟨[⟨1, "hello".toList, [], 0, "medium".toList⟩],
       [⟨1, "hello".toList, []⟩]⟩).2 (by decide)).2
     rfl (by decide) (by decide)⟩

/-- C1 (code bug): the FTS index is not kept in lockstep with the
`memories` table.  Insertion does add exactly one index entry, but on
delete the `memories_ad` trigger's plain `DELETE FROM memories_fts`
removes no posting from the external-content FTS5 table, so after
`remember("Using postgres")` then `forget("postgres")` the table is
empty while the index still holds the entry for rowid 1 — the row counts
diverge.  The freed maximal rowid is then reused: a subsequent
`remember("Using redis")` gets rowid 1, and `recall("postgres")` with
limit 5 returns that unrelated new memory through the stale entry. -/
theorem fts_delete_trigger_stale_index :
    (remember ("Using postgres".toList) [] ("medium".toList) 0 initDB).fts =
      [⟨1, "Using postgres".toList, []⟩] ∧
    (forget ("postgres".toList)
      (remember ("Using postgres".toList) [] ("medium".toList) 0 initDB)).2 = 1 ∧
    (forget ("postgres".toList)
      (remember ("Using postgres".toList) [] ("medium".toList) 0 initDB)).1.rows = [] ∧
    (forget ("postgres".toList)
      (remember ("Using postgres".toList) [] ("medium".toList) 0 initDB)).1.fts =
      [⟨1, "Using postgres".toList, []⟩] ∧
    (forget ("postgres".toList)
      (remember ("Using postgres".toList) [] ("medium".toList) 0 initDB)).1.fts.length ≠
    (forget ("postgres".toList)
      (remember ("Using postgres".toList) [] ("medium".toList) 0 initDB)).1.rows.length ∧
    (remember ("Using redis".toList) [] ("medium".toList) 10
      (forget ("postgres".toList)
        (remember ("Using postgres".toList) [] ("medium".toList) 0 initDB)).1).rows.map
      (fun m => m.rowid) = [1] ∧
    (⟨1, "Using redis".toList, [], 10, "medium".toList⟩ : MemRow) ∈
      recallMemories ("postgres".toList) 5 10
        (remember ("Using redis".toList) [] ("medium".toList) 10
          (forget ("postgres".toList)
            (remember ("Using postgres".toList) [] ("medium".toList) 0 initDB)).1) := by
  refine ⟨by decide, by decide, by decide, by decide, by decide, by decide, by decide⟩

end SimpleContext
